import Mathlib

/-!
Verification development for the bloodwork OCR extraction pipeline
(backend/app/services/ocr_service.py together with the pydantic schemas in
backend/app/models/schemas.py).

The Python source is shallowly embedded:

* Python floats are modelled as exact rationals.
* Python strings are modelled as Lean strings restricted to their ASCII
  behaviour (str.lower, str.strip, regex character classes).
* The remote collaborators (Tesseract engine, chat-completion endpoint,
  vision endpoint, document rasterizer) are modelled as oracles passed to
  the pipeline functions; an oracle value describes the reply a collaborator
  gives on this run, after transport and top-level JSON decoding.  A
  transport failure, timeout or undecodable reply is an error value.
* A Python exception that escapes a function is modelled by the function
  returning an error in the Except monad; code regions wrapped in
  try/except blocks are modelled by matching on that error.
-/

namespace OutliveOCR

/-! ## Python string primitives (ASCII model) -/

/-- The six ASCII characters Python treats as whitespace in str.strip and
that the regex class matches for ASCII text. -/
def isPySpace (c : Char) : Bool :=
  c = ' ' || c = '\t' || c = '\n' || c = '\r' || c = '\x0b' || c = '\x0c'

/-- ASCII lowercase conversion of one character (model of str.lower per
character; non-ASCII letters are out of scope of this model). -/
def lowerChar (c : Char) : Char :=
  if c = 'A' then 'a' else if c = 'B' then 'b' else if c = 'C' then 'c'
  else if c = 'D' then 'd' else if c = 'E' then 'e' else if c = 'F' then 'f'
  else if c = 'G' then 'g' else if c = 'H' then 'h' else if c = 'I' then 'i'
  else if c = 'J' then 'j' else if c = 'K' then 'k' else if c = 'L' then 'l'
  else if c = 'M' then 'm' else if c = 'N' then 'n' else if c = 'O' then 'o'
  else if c = 'P' then 'p' else if c = 'Q' then 'q' else if c = 'R' then 'r'
  else if c = 'S' then 's' else if c = 'T' then 't' else if c = 'U' then 'u'
  else if c = 'V' then 'v' else if c = 'W' then 'w' else if c = 'X' then 'x'
  else if c = 'Y' then 'y' else if c = 'Z' then 'z' else c

/-- The uppercase ASCII letters, the domain on which lowerChar acts. -/
def upperChars : List Char :=
  ['A', 'B', 'C', 'D', 'E', 'F', 'G', 'H', 'I', 'J', 'K', 'L', 'M', 'N',
   'O', 'P', 'Q', 'R', 'S', 'T', 'U', 'V', 'W', 'X', 'Y', 'Z']

/-- Model of str.lower. -/
def pyLower (s : String) : String :=
  ⟨s.data.map lowerChar⟩

/-- Strip leading and trailing Python whitespace from a character list. -/
def stripList (l : List Char) : List Char :=
  (((l.dropWhile isPySpace).reverse.dropWhile isPySpace)).reverse

/-- Model of str.strip(). -/
def pyStrip (s : String) : String :=
  ⟨stripList s.data⟩

/-- Substring containment on character lists (the Python operator in). -/
def containsSub (hay pat : List Char) : Bool :=
  match hay with
  | [] => pat.isEmpty
  | _ :: t => pat.isPrefixOf hay || containsSub t pat

/-- Numeric value of a single decimal digit character. -/
def digitVal (c : Char) : Nat :=
  if c = '0' then 0 else if c = '1' then 1 else if c = '2' then 2
  else if c = '3' then 3 else if c = '4' then 4 else if c = '5' then 5
  else if c = '6' then 6 else if c = '7' then 7 else if c = '8' then 8
  else if c = '9' then 9 else 0

/-- Natural number denoted by a list of decimal digits (most significant
first).  Used to give the exact rational value of numeric literals. -/
def digitsVal (l : List Char) : Nat :=
  l.foldl (fun acc c => 10 * acc + digitVal c) 0

/-- Model of the Python float() constructor applied to a string made of
digits, at most one dot and an optional leading minus sign.  Returns none
exactly when float() raises ValueError.  (Exponent and inf/nan forms never
arise on the strings the pipeline builds, so they are not modelled.) -/
def parseDecimal (s : String) : Option ℚ :=
  let cs := s.data
  let signed := cs.head? = some '-'
  let cs := if signed then cs.tail else cs
  let intPart := cs.takeWhile Char.isDigit
  let rest := cs.drop intPart.length
  let build (ip fp : List Char) : ℚ :=
    let mag : ℚ := (digitsVal ip : ℚ) + (digitsVal fp : ℚ) / ((10 : ℚ) ^ fp.length)
    if signed then -mag else mag
  match rest with
  | [] => if intPart.isEmpty then none else some (build intPart [])
  | '.' :: frac =>
      if frac.all Char.isDigit && !(intPart.isEmpty && frac.isEmpty) then
        some (build intPart frac)
      else none
  | _ => none

/-- The character filter of re.sub removing every character that is not a
digit, a dot or a minus sign (value coercion in the structured parser). -/
def keepNumChars (s : String) : String :=
  ⟨s.data.filter (fun c => c.isDigit || c = '.' || c = '-')⟩

/-- Split a character list at newline separators (model of
str.split applied with the one-character separator). -/
def splitLinesAux (acc : List Char) : List Char → List (List Char)
  | [] => [acc.reverse]
  | c :: r =>
      if c = '\n' then acc.reverse :: splitLinesAux [] r
      else splitLinesAux (c :: acc) r

/-- All newline-separated segments of a string. -/
def splitLines (s : String) : List (List Char) :=
  splitLinesAux [] s.data

/-- Model of str.endswith. -/
def pyEndsWith (s suffix : String) : Bool :=
  suffix.data.isSuffixOf s.data

/-- Decidable equality of collaborator outcomes, needed to state concrete
evaluations of the fallible stages. -/
instance {ε α : Type} [DecidableEq ε] [DecidableEq α] :
    DecidableEq (Except ε α) := fun a b =>
  match a, b with
  | .ok x, .ok y =>
      if h : x = y then .isTrue (by rw [h]) else .isFalse (by simp [h])
  | .error x, .error y =>
      if h : x = y then .isTrue (by rw [h]) else .isFalse (by simp [h])
  | .ok _, .error _ => .isFalse (by simp)
  | .error _, .ok _ => .isFalse (by simp)

/-! ## Data model (schemas.py) -/

/-- Embedding of the pydantic model BloodworkMarker (schemas.py lines 96-107)
after successful validation.  Floats are exact rationals. -/
structure BloodworkMarker where
  name : String
  value : ℚ
  unit : String
  reference_low : Option ℚ
  reference_high : Option ℚ
  flag : Option String
deriving DecidableEq, Repr

/-- Embedding of pydantic validation for BloodworkMarker: name and unit are
length-constrained (name 1..200, unit 1..50), and the strip_name validator
strips the name after those checks pass.  Returns none exactly when pydantic
raises ValidationError (a ValueError). -/
def mkBloodworkMarker (name : String) (value : ℚ) (unit : String)
    (rl rh : Option ℚ) (flag : Option String) : Option BloodworkMarker :=
  if 1 ≤ name.length ∧ name.length ≤ 200 ∧ 1 ≤ unit.length ∧ unit.length ≤ 50 then
    some ⟨pyStrip name, value, unit, rl, rh, flag⟩
  else
    none

/-- Embedding of the pydantic model OCRResponse (schemas.py lines 373-376).
The pipeline always supplies a numeric confidence, so it is modelled as a
plain rational; raw_text keeps its optionality. -/
structure OCRResponse where
  markers : List BloodworkMarker
  raw_text : Option String
  confidence : ℚ
deriving DecidableEq, Repr

/-! ## Alias table and name normalization (ocr_service.py lines 31-137, 317-320) -/

/-- The MARKER_ALIASES dictionary, as an association list in source order. -/
def MARKER_ALIASES : List (String × String) :=
  [("wbc", "White Blood Cells"), ("rbc", "Red Blood Cells"),
   ("hgb", "Hemoglobin"), ("hb", "Hemoglobin"), ("hct", "Hematocrit"),
   ("plt", "Platelets"), ("mcv", "MCV"), ("mch", "MCH"), ("mchc", "MCHC"),
   ("rdw", "RDW"), ("mpv", "MPV"), ("glucose", "Glucose"),
   ("gluc", "Glucose"), ("fasting glucose", "Glucose (Fasting)"),
   ("bun", "BUN"), ("creatinine", "Creatinine"), ("creat", "Creatinine"),
   ("egfr", "eGFR"), ("sodium", "Sodium"), ("na", "Sodium"),
   ("potassium", "Potassium"), ("k", "Potassium"), ("chloride", "Chloride"),
   ("cl", "Chloride"), ("co2", "CO2"), ("carbon dioxide", "CO2"),
   ("calcium", "Calcium"), ("ca", "Calcium"),
   ("total protein", "Total Protein"), ("albumin", "Albumin"),
   ("alb", "Albumin"), ("globulin", "Globulin"), ("a/g ratio", "A/G Ratio"),
   ("bilirubin", "Bilirubin Total"), ("total bilirubin", "Bilirubin Total"),
   ("direct bilirubin", "Bilirubin Direct"),
   ("alkaline phosphatase", "Alkaline Phosphatase"),
   ("alk phos", "Alkaline Phosphatase"), ("alp", "Alkaline Phosphatase"),
   ("ast", "AST"), ("sgot", "AST"), ("alt", "ALT"), ("sgpt", "ALT"),
   ("ggt", "GGT"), ("ldh", "LDH"), ("cholesterol", "Total Cholesterol"),
   ("total cholesterol", "Total Cholesterol"), ("hdl", "HDL Cholesterol"),
   ("hdl cholesterol", "HDL Cholesterol"), ("ldl", "LDL Cholesterol"),
   ("ldl cholesterol", "LDL Cholesterol"), ("ldl-c", "LDL Cholesterol"),
   ("triglycerides", "Triglycerides"), ("trig", "Triglycerides"),
   ("vldl", "VLDL"), ("apob", "ApoB"), ("apolipoprotein b", "ApoB"),
   ("lp(a)", "Lp(a)"), ("lipoprotein(a)", "Lp(a)"),
   ("lipoprotein a", "Lp(a)"), ("tsh", "TSH"), ("t3", "T3"),
   ("free t3", "Free T3"), ("t4", "T4"), ("free t4", "Free T4"),
   ("ft4", "Free T4"), ("ft3", "Free T3"), ("hemoglobin a1c", "HbA1c"),
   ("hba1c", "HbA1c"), ("a1c", "HbA1c"), ("glycated hemoglobin", "HbA1c"),
   ("insulin", "Insulin"), ("fasting insulin", "Insulin (Fasting)"),
   ("homa-ir", "HOMA-IR"), ("c-reactive protein", "CRP"), ("crp", "CRP"),
   ("hs-crp", "hs-CRP"), ("high sensitivity crp", "hs-CRP"),
   ("homocysteine", "Homocysteine"), ("ferritin", "Ferritin"),
   ("iron", "Iron"), ("tibc", "TIBC"),
   ("transferrin saturation", "Transferrin Saturation"),
   ("vitamin d", "Vitamin D"), ("25-hydroxy vitamin d", "Vitamin D"),
   ("vitamin d, 25-oh", "Vitamin D"), ("vitamin b12", "Vitamin B12"),
   ("b12", "Vitamin B12"), ("folate", "Folate"), ("folic acid", "Folate"),
   ("magnesium", "Magnesium"), ("mg", "Magnesium"), ("zinc", "Zinc"),
   ("testosterone", "Testosterone"),
   ("total testosterone", "Testosterone Total"),
   ("free testosterone", "Testosterone Free"), ("estradiol", "Estradiol"),
   ("e2", "Estradiol"), ("dhea-s", "DHEA-S"), ("dhea sulfate", "DHEA-S"),
   ("cortisol", "Cortisol"), ("psa", "PSA"), ("uric acid", "Uric Acid"),
   ("fibrinogen", "Fibrinogen"), ("d-dimer", "D-Dimer")]

/-- Dictionary lookup (dict.get with a default handled by the caller). -/
def aliasLookup : List (String × String) → String → Option String
  | [], _ => none
  | (k, v) :: rest, key => if key = k then some v else aliasLookup rest key

/-- Embedding of normalize_marker_name (ocr_service.py lines 317-320):
MARKER_ALIASES.get(name.lower().strip(), name.strip()). -/
def normalize_marker_name (name : String) : String :=
  match aliasLookup MARKER_ALIASES (pyStrip (pyLower name)) with
  | some v => v
  | none => pyStrip name

/-! ## Size normalization step of preprocess_image (ocr_service.py lines 162-174)

The two resize blocks act on the image dimensions only; they run before the
contrast/sharpness enhancement and the binarization, none of which change
the size.  int() truncation on the nonnegative products is modelled with
the floor. -/

/-- Dimensions after the two resize blocks of preprocess_image: upscale when
the smaller dimension is under 1500, then downscale when the larger
dimension exceeds 4000.  In exact arithmetic int(d * (target / m)) is the
floor of d * target / m, i.e. natural division. -/
def sizeNormalize (w h : ℕ) : ℕ × ℕ :=
  let p1 : ℕ × ℕ :=
    if min w h < 1500 then (w * 1500 / min w h, h * 1500 / min w h)
    else (w, h)
  if 4000 < max p1.1 p1.2 then
    (p1.1 * 4000 / max p1.1 p1.2, p1.2 * 4000 / max p1.1 p1.2)
  else p1

/-! ## Text-recognition grid search (ocr_service.py lines 230-284) -/

/-- The three preprocessing strategies. -/
inductive Strategy where
  | standard
  | high_contrast
  | photo
deriving DecidableEq, Repr

/-- The nine (strategy, psm layout mode) combinations in attempt order:
strategies [standard, high_contrast, photo] outer, psm modes [3, 6, 4]
inner. -/
def gridOrder : List (Strategy × Nat) :=
  [(.standard, 3), (.standard, 6), (.standard, 4),
   (.high_contrast, 3), (.high_contrast, 6), (.high_contrast, 4),
   (.photo, 3), (.photo, 6), (.photo, 4)]

/-- The candidate score: character count plus twice the digit count. -/
def tscore (t : String) : ℕ :=
  t.length + 2 * t.data.countP (fun c => c.isDigit)

/-- One grid-search step: an engine failure (none) keeps the current best;
an engine reply is stripped, scored, and kept if it strictly beats the
best score so far. -/
def gridStep (grid : Strategy → Nat → Option String) (best : String × ℕ)
    (sp : Strategy × Nat) : String × ℕ :=
  match grid sp.1 sp.2 with
  | none => best
  | some t =>
      let t := pyStrip t
      if best.2 < tscore t then (t, tscore t) else best

/-- Embedding of extract_text_tesseract.  The oracle grid gives the engine
reply for each (strategy, psm) combination, none meaning that attempt (or
its preprocessing) raised; raw gives the reply of the unconditional
last-resort attempt without preprocessing, none meaning it raised too. -/
def extract_text_tesseract (grid : Strategy → Nat → Option String)
    (raw : Option String) : String :=
  let best := gridOrder.foldl (gridStep grid) ("", 0)
  if best.1 = "" then pyStrip (raw.getD "") else best.1

/-! ## round(x, 2) (used on the aggregate confidence) -/

/-- Round a rational to the nearest integer, ties to even (the model of
Python round on exact values). -/
def roundHalfEven (q : ℚ) : ℤ :=
  let f := ⌊q⌋
  let r := q - f
  if r < 1 / 2 then f
  else if 1 / 2 < r then f + 1
  else if f % 2 = 0 then f else f + 1

/-- Model of round(x, 2). -/
def round2 (q : ℚ) : ℚ :=
  (roundHalfEven (q * 100) : ℚ) / 100

/-! ## Structured parser (parse_markers_with_llm, ocr_service.py lines 323-443)

The remote reply is modelled after transport and JSON extraction: an error
value covers a timeout, a missing JSON object in the reply and an invalid
JSON object (all three return ([], 0.0) in the source); an ok value is the
parsed object.  Marker entry names and units are modelled as optional
strings and the confidence field as an optional rational (a reply carrying
values of other JSON types in those positions aborts the whole parse in the
source via the outer exception handler and is out of scope of the model). -/

/-- A JSON scalar, as far as the value-coercion paths inspect it. -/
inductive JVal where
  | num (q : ℚ)
  | str (s : String)
  | null
deriving DecidableEq, Repr

/-- One entry of the markers array of the structured-parser reply; none
models an absent key. -/
structure RawMarker where
  name : Option String
  value : Option JVal
  unit : Option String
  reference_low : Option JVal
  reference_high : Option JVal
  flag : Option String

/-- The parsed structured-parser reply. -/
structure LLMReply where
  markers : List RawMarker
  confidence : Option ℚ

/-- Value coercion (lines 410-417): absent and null skip the entry; a string
is stripped of every character except digits, dot and minus and then fed to
float(), an empty or unparsable remainder skipping the entry. -/
def coerceValue : Option JVal → Option ℚ
  | none => none
  | some .null => none
  | some (.num q) => some q
  | some (.str s) =>
      let cleaned := keepNumChars s
      if cleaned = "" then none else parseDecimal cleaned

/-- Reference-bound coercion (lines 423-424): absent and null give no bound;
a number passes through; float() on a string raises (error) when it does not
parse, which the per-marker handler turns into skipping the marker. -/
def coerceRef : Option JVal → Except Unit (Option ℚ)
  | none => .ok none
  | some .null => .ok none
  | some (.num q) => .ok (some q)
  | some (.str s) =>
      match parseDecimal (pyStrip s) with
      | some q => .ok (some q)
      | none => .error ()

/-- The per-entry body of the marker loop (lines 402-430): normalize the
name, skip on empty name or unparsable value, then build the pydantic
marker; any ValueError (reference coercion, schema validation) skips just
this entry. -/
def coerceMarker (m : RawMarker) : Option BloodworkMarker :=
  let name := normalize_marker_name (m.name.getD "")
  if name = "" then none
  else
    match coerceValue m.value with
    | none => none
    | some v =>
        match coerceRef m.reference_low, coerceRef m.reference_high with
        | .ok rl, .ok rh => mkBloodworkMarker name v (m.unit.getD "") rl rh m.flag
        | _, _ => none

/-- Embedding of parse_markers_with_llm: on any transport/JSON failure
([], 0.0); otherwise the per-entry coercion over the markers array and the
reported confidence, defaulting to 0.8 when markers survived and 0.0
otherwise. -/
def parse_markers_with_llm (reply : Except Unit LLMReply) :
    List BloodworkMarker × ℚ :=
  match reply with
  | .error _ => ([], 0)
  | .ok r =>
      let markers := r.markers.filterMap coerceMarker
      (markers, r.confidence.getD (if markers.isEmpty then 0 else 8 / 10))

/-! ## Vision fallback (process_with_vision, ocr_service.py lines 552-614) -/

/-- One entry of the markers array of the vision reply, constructed with
BloodworkMarker(**m): the required fields are present (an entry missing one
fails validation exactly like an unparsable value, aborting the whole
reply). -/
structure RawVisionMarker where
  name : String
  value : JVal
  unit : String
  reference_low : Option JVal
  reference_high : Option JVal
  flag : Option String

/-- Outcome of the vision call: fail covers timeout, transport error and
json.loads failure; prose is a reply with no JSON object in it; json is the
parsed object. -/
inductive VisionOutcome where
  | fail
  | prose (content : String)
  | json (markers : List RawVisionMarker) (raw_text : Option String)
      (confidence : Option ℚ)

/-- Pydantic lax coercion of a float field: numbers pass, numeric strings
are parsed, anything else fails validation. -/
def pydanticFloat : JVal → Option ℚ
  | .num q => some q
  | .str s => parseDecimal (pyStrip s)
  | .null => none

/-- Pydantic lax coercion of an optional float field. -/
def pydanticOptFloat : Option JVal → Option (Option ℚ)
  | none => some none
  | some .null => some none
  | some v => (pydanticFloat v).map some

/-- Direct BloodworkMarker(**m) validation of one vision entry. -/
def mkVisionMarker (m : RawVisionMarker) : Option BloodworkMarker := do
  let v ← pydanticFloat m.value
  let rl ← pydanticOptFloat m.reference_low
  let rh ← pydanticOptFloat m.reference_high
  mkBloodworkMarker m.name v m.unit rl rh m.flag

/-- The markers list comprehension of the vision stage: entries are
validated left to right and the first invalid entry aborts the whole list
(there is no per-entry handler). -/
def mapMarkers : List RawVisionMarker → Option (List BloodworkMarker)
  | [] => some []
  | m :: rest =>
      match mkVisionMarker m with
      | none => none
      | some b =>
          match mapMarkers rest with
          | none => none
          | some bs => some (b :: bs)

/-- Embedding of process_with_vision.  One invalid entry in the markers
comprehension raises, the outer handler catches, and the whole call reports
([], none, 0.0). -/
def process_with_vision (o : VisionOutcome) :
    List BloodworkMarker × Option String × ℚ :=
  match o with
  | .fail => ([], none, 0)
  | .prose c => ([], some c, 3 / 10)
  | .json ms rt conf =>
      match mapMarkers ms with
      | some markers => (markers, rt, conf.getD (1 / 2))
      | none => ([], none, 0)

/-! ## Regex fallback extractor (extract_markers_regex, ocr_service.py lines 446-518)

The two search patterns are translated into executable matchers with
re.search semantics (leftmost start; the lazy name group takes the shortest
middle for which the remainder matches; everything after the name is
deterministic because every later element of the patterns can match empty).
Classes: pattern-1 names allow letters, digits, whitespace, minus and
parentheses; pattern-2 names allow the same without parentheses; units
allow letters, slash and percent.  re.IGNORECASE changes nothing for these
patterns (every letter class already has both cases). -/

/-- The pattern-1 name-tail character class. -/
def nameClass1 (c : Char) : Bool :=
  c.isAlpha || c.isDigit || isPySpace c || c = '-' || c = '(' || c = ')'

/-- The pattern-2 name-tail character class. -/
def nameClass2 (c : Char) : Bool :=
  c.isAlpha || c.isDigit || isPySpace c || c = '-'

/-- The unit character class. -/
def unitClass (c : Char) : Bool :=
  c.isAlpha || c = '/' || c = '%'

/-- Does the list start with at least one whitespace character followed
(after the whitespace run) by a digit?  This is the test the lazy pattern-1
name group stops on. -/
def wsThenDigit (l : List Char) : Bool :=
  match l with
  | [] => false
  | c :: _ =>
      isPySpace c &&
        match l.dropWhile isPySpace with
        | d :: _ => d.isDigit
        | [] => false

/-- Match the numeric token of the patterns: one or more digits, an
optional dot, then optional digits.  Returns the token and the rest. -/
def takeNumber (l : List Char) : Option (List Char × List Char) :=
  let ds := l.takeWhile Char.isDigit
  if ds.isEmpty then none
  else
    match l.drop ds.length with
    | '.' :: r2 =>
        let fs := r2.takeWhile Char.isDigit
        some (ds ++ '.' :: fs, r2.drop fs.length)
    | r => some (ds, r)

/-- The lazy pattern-1 name tail, after at least one character is already
consumed: stop at the first point where whitespace followed by a digit
starts; otherwise consume the next name-class character.  acc holds the
consumed tail characters in reverse. -/
def p1NameGo : List Char → List Char → Option (List Char × List Char)
  | _, [] => none
  | acc, c :: r =>
      if wsThenDigit (c :: r) then some (acc.reverse, c :: r)
      else if nameClass1 c then p1NameGo (c :: acc) r
      else none

/-- The lazy pattern-1 name tail: it must consume at least one character
(the lazy group has a one-repetition minimum), then may stop at the first
point where the rest of the pattern can take over. -/
def p1Name : List Char → Option (List Char × List Char)
  | c :: r => if nameClass1 c then p1NameGo [c] r else none
  | [] => none

/-- The bracketed reference range of pattern 1: optional whitespace, an
optional opening bracket, the low bound, a hyphen or en dash, the high
bound (the trailing closing bracket is optional and uncaptured). -/
def parseRefRange (l : List Char) : Option (List Char × List Char) :=
  let l1 := l.dropWhile isPySpace
  let l2 :=
    match l1 with
    | '[' :: r => r
    | '(' :: r => r
    | _ => l1
  let l3 := l2.dropWhile isPySpace
  match takeNumber l3 with
  | none => none
  | some (low, r1) =>
      match r1.dropWhile isPySpace with
      | c :: r3 =>
          if c = '-' || c = '–' then
            match takeNumber (r3.dropWhile isPySpace) with
            | none => none
            | some (high, _) => some (low, high)
          else none
      | [] => none

/-- Captured groups of a pattern-1 match. -/
structure P1Match where
  name : String
  value : String
  unit : Option String
  ref_low : Option String
  ref_high : Option String
deriving DecidableEq, Repr

/-- Captured groups of a pattern-2 match. -/
structure P2Match where
  name : String
  value : String
  unit : Option String
deriving DecidableEq, Repr

/-- Attempt pattern 1 anchored at a position whose first character is c0. -/
def p1MatchAt (c0 : Char) (rest : List Char) : Option P1Match :=
  if c0.isAlpha then
    match p1Name rest with
    | none => none
    | some (middle, r0) =>
        let r1 := r0.dropWhile isPySpace
        match takeNumber r1 with
        | none => none
        | some (val, r2) =>
            let r3 := r2.dropWhile isPySpace
            let us := r3.takeWhile unitClass
            let ref := parseRefRange (r3.drop us.length)
            some { name := ⟨c0 :: middle⟩, value := ⟨val⟩,
                   unit := if us.isEmpty then none else some ⟨us⟩,
                   ref_low := ref.map (fun p => (⟨p.1⟩ : String)),
                   ref_high := ref.map (fun p => (⟨p.2⟩ : String)) }
  else none

/-- re.search for pattern 1: try every start position left to right. -/
def p1Search : List Char → Option P1Match
  | [] => none
  | c :: rest =>
      match p1MatchAt c rest with
      | some m => some m
      | none => p1Search rest

/-- Attempt pattern 2 anchored at a position whose first character is c0.
The name tail is the maximal class run because a colon can never occur
inside it, so the lazy group has exactly one candidate end. -/
def p2MatchAt (c0 : Char) (rest : List Char) : Option P2Match :=
  if c0.isAlpha then
    let middle := rest.takeWhile nameClass2
    if middle.isEmpty then none
    else
      match rest.drop middle.length with
      | ':' :: r =>
          match takeNumber (r.dropWhile isPySpace) with
          | none => none
          | some (val, r2) =>
              let us := (r2.dropWhile isPySpace).takeWhile unitClass
              some { name := ⟨c0 :: middle⟩, value := ⟨val⟩,
                     unit := if us.isEmpty then none else some ⟨us⟩ }
      | _ => none
  else none

/-- re.search for pattern 2. -/
def p2Search : List Char → Option P2Match
  | [] => none
  | c :: rest =>
      match p2MatchAt c rest with
      | some m => some m
      | none => p2Search rest

/-- The fixed known-marker vocabulary (lines 461-469). -/
def known_markers : List String :=
  ["glucose", "hdl", "ldl", "cholesterol", "triglycerides", "hemoglobin",
   "hematocrit", "wbc", "rbc", "platelets", "creatinine", "bun", "sodium",
   "potassium", "chloride", "calcium", "albumin", "protein", "bilirubin",
   "ast", "alt", "alp", "ggt", "tsh", "hba1c", "a1c", "insulin", "ferritin",
   "iron", "vitamin d", "b12", "testosterone", "estradiol", "cortisol",
   "crp", "homocysteine", "apob", "lp(a)", "egfr", "mcv", "mch", "mchc",
   "rdw", "mpv", "uric acid", "magnesium", "zinc", "folate", "dhea",
   "vldl", "fibrinogen"]

/-- any(known in name_lower for known in known_markers). -/
def isKnownName (nameLower : String) : Bool :=
  known_markers.any (fun k => containsSub nameLower.data k.data)

/-- Parse an optionally captured group with float(); none means the group
did not participate, a parse failure is a ValueError. -/
def optParse : Option String → Except Unit (Option ℚ)
  | none => .ok none
  | some s =>
      match parseDecimal s with
      | some q => .ok (some q)
      | none => .error ()

/-- The per-line body of extract_markers_regex: try pattern 1 then pattern 2
(a rejected or failing pattern falls through to the next one via continue).
Returns ok none when the line yields no marker, ok (some m) on a pattern-1
marker that passed validation, and error for the IndexError raised on every
accepted pattern-2 match: line 491 reads match.group of a group called
ref_low, which pattern 2 does not define, and IndexError is not among the
caught exception classes. -/
def lineStep2 (line : List Char) : Except Unit (Option BloodworkMarker) :=
  match p2Search line with
  | none => .ok none
  | some m2 =>
      if !isKnownName (pyLower (pyStrip m2.name))
          && (pyStrip m2.name).length < 3 then .ok none
      else
        match parseDecimal m2.value with
        | none => .ok none
        | some _ => .error ()

def lineMarker (line : List Char) : Except Unit (Option BloodworkMarker) :=
  match p1Search line with
  | none => lineStep2 line
  | some m1 =>
      if !isKnownName (pyLower (pyStrip m1.name))
          && (pyStrip m1.name).length < 3 then lineStep2 line
      else
        match parseDecimal m1.value with
        | none => lineStep2 line
        | some v =>
            match optParse m1.ref_low, optParse m1.ref_high with
            | .ok rl, .ok rh =>
                match mkBloodworkMarker
                    (normalize_marker_name (pyStrip m1.name)) v
                    (m1.unit.getD "") rl rh none with
                | some marker => .ok (some marker)
                | none => lineStep2 line
            | _, _ => lineStep2 line

/-- The final first-match-wins deduplication of the regex stage (a seen set
of lowercased names, lines 510-516). -/
def dedupFirstAux : List String → List BloodworkMarker → List BloodworkMarker
  | _, [] => []
  | seen, m :: rest =>
      if seen.contains (pyLower m.name) then dedupFirstAux seen rest
      else m :: dedupFirstAux (pyLower m.name :: seen) rest

/-- The line loop of extract_markers_regex: strip each line, skip empty
lines, append the marker a line yields, propagate the IndexError a line
raises. -/
def collectLines : List (List Char) → List BloodworkMarker →
    Except Unit (List BloodworkMarker)
  | [], acc => .ok acc
  | line :: rest, acc =>
      if line.isEmpty then collectLines rest acc
      else
        match lineMarker line with
        | .error e => .error e
        | .ok (some m) => collectLines rest (acc ++ [m])
        | .ok none => collectLines rest acc

/-- Embedding of extract_markers_regex.  The error value is the IndexError
escaping the whole function. -/
def extract_markers_regex (raw_text : String) :
    Except Unit (List BloodworkMarker) :=
  match collectLines ((splitLines raw_text).map stripList) [] with
  | .error e => .error e
  | .ok collected => .ok (dedupFirstAux [] collected)

/-! ## Per-page pipeline (process_image_ocr, ocr_service.py lines 521-549) -/

/-- The collaborator replies available to one page of processing. -/
structure PageOracle where
  grid : Strategy → Nat → Option String
  raw : Option String
  llm : Except Unit LLMReply
  vision : VisionOutcome

/-- Embedding of process_image_ocr: Tesseract text, then the structured
parser when the text passes the 50-character threshold, then the regex
fallback when the parser produced nothing (with confidence pinned to 0.5
when it found markers), then the vision fallback when still empty.  The
error value is the IndexError the regex stage can raise, which no handler
inside this function catches. -/
def process_image_ocr (o : PageOracle) (use_vision_fallback : Bool) :
    Except Unit (List BloodworkMarker × String × ℚ) :=
  let raw_text := extract_text_tesseract o.grid o.raw
  let s1 : List BloodworkMarker × ℚ :=
    if 50 < raw_text.length then parse_markers_with_llm o.llm else ([], 0)
  let step2 : Except Unit (List BloodworkMarker × ℚ) :=
    if s1.1.isEmpty && decide (50 < raw_text.length) then
      match extract_markers_regex raw_text with
      | .error e => .error e
      | .ok ms => .ok (if ms.isEmpty then s1 else (ms, 1 / 2))
    else .ok s1
  match step2 with
  | .error e => .error e
  | .ok s2 =>
      let s3 : List BloodworkMarker × ℚ :=
        if s2.1.isEmpty && use_vision_fallback then
          let r := process_with_vision o.vision
          (r.1, r.2.2)
        else s2
      .ok (s3.1, raw_text, s3.2)

/-! ## Whole-file pipeline (process_single_file, ocr_service.py lines 617-674) -/

/-- The response of the outer exception handler (lines 668-674). -/
def emptyResponse : OCRResponse := ⟨[], none, 0⟩

/-- One step of the deduplicating dict seen_markers: assignment to an
existing key replaces the value in place, a new key is appended (dict
insertion-order semantics). -/
def upsertMarker (acc : List (String × BloodworkMarker))
    (m : BloodworkMarker) : List (String × BloodworkMarker) :=
  let k := pyLower m.name
  if acc.any (fun p => p.1 = k) then
    acc.map (fun p => if p.1 = k then (p.1, m) else p)
  else acc ++ [(k, m)]

/-- Deduplication by lowercased name with the last duplicate winning
(lines 653-659). -/
def dedupMarkers (ms : List BloodworkMarker) : List BloodworkMarker :=
  (ms.foldl upsertMarker []).map (fun p => p.2)

/-- The aggregation tail of process_single_file (lines 653-666): dedup,
average confidence over the page count, page texts joined by blank-line
delimiters, confidence rounded to two decimals. -/
def aggregate (allMarkers : List BloodworkMarker) (parts : List String)
    (total : ℚ) (page_count : ℕ) : OCRResponse :=
  let avg : ℚ := if 0 < page_count then total / (page_count : ℚ) else 0
  { markers := dedupMarkers allMarkers
    raw_text :=
      if parts.isEmpty then none else some (String.intercalate "\n\n" parts)
    confidence := round2 avg }

/-- The page delimiter prepended to the text of PDF page i (0-based). -/
def pageHeader (i : ℕ) (t : String) : String :=
  "--- Page " ++ toString (i + 1) ++ " ---\n" ++ t

/-- The sequential page loop of the PDF branch: pages are processed in
order and an exception on any page aborts the whole body (landing in the
outer handler). -/
def mapPages (f : PageOracle → Except Unit (List BloodworkMarker × String × ℚ)) :
    List PageOracle → Except Unit (List (List BloodworkMarker × String × ℚ))
  | [] => .ok []
  | o :: rest =>
      match f o with
      | .error e => .error e
      | .ok r =>
          match mapPages f rest with
          | .error e => .error e
          | .ok rs => .ok (r :: rs)

/-- Embedding of process_single_file.  pdfPages is the rasterizer outcome
used on the PDF branch (error = pdf_to_images raised); imagePage is the
image-decode outcome used on the other branch (error = Image.open raised).
Every exception inside the body — decode failure or a page raising — lands
in the outer handler, which returns the empty response; the function itself
is total and never propagates an error. -/
def process_single_file (filename content_type : String)
    (pdfPages : Except Unit (List PageOracle))
    (imagePage : Except Unit PageOracle) : OCRResponse :=
  let body : Except Unit OCRResponse :=
    if content_type = "application/pdf" || pyEndsWith (pyLower filename) ".pdf" then
      match pdfPages with
      | .error e => .error e
      | .ok pages =>
          match mapPages (fun o => process_image_ocr o true) pages with
          | .error e => .error e
          | .ok results =>
              let parts := results.enum.filterMap
                (fun p =>
                  if p.2.2.1 = "" then none else some (pageHeader p.1 p.2.2.1))
              let allMarkers := (results.map (fun r => r.1)).flatten
              let total := (results.map (fun r => r.2.2)).sum
              .ok (aggregate allMarkers parts total pages.length)
    else
      match imagePage with
      | .error e => .error e
      | .ok o =>
          match process_image_ocr o true with
          | .error e => .error e
          | .ok r =>
              .ok (aggregate r.1 (if r.2.1 = "" then [] else [r.2.1]) r.2.2 1)
  match body with
  | .ok resp => resp
  | .error _ => emptyResponse

/-! ## Constraints on collaborator replies used in conditional statements -/

/-- The confidence fields a page oracle reports, both on the structured
parser reply and on the vision reply, lie in the unit interval whenever
they are present. -/
def ReplyConfOK (o : PageOracle) : Prop :=
  (∀ r c, o.llm = .ok r → r.confidence = some c → 0 ≤ c ∧ c ≤ 1) ∧
  (∀ ms rt c, o.vision = .json ms rt (some c) → 0 ≤ c ∧ c ≤ 1)

/-! ## Concrete fixtures for scenario evaluations -/

/-- A 60-character recognized line, above the 50-character threshold. -/
def textA : String :=
  "Glucose 95 mg/dL result text from the laboratory analyzer v2"

/-- A digit-free recognized text above the threshold: neither regex
pattern can match it (both require a numeric value), so the text-based
fallbacks yield nothing on it. -/
def textNoDigits : String :=
  "completely unreadable scanned page full of smudges and noise"

/-- The marker the structured parser extracts from a Glucose 95 entry. -/
def mGlucose95 : BloodworkMarker :=
  ⟨"Glucose", 95, "mg/dL", none, none, none⟩

/-- Glucose 98, as produced from a page-2 reply. -/
def mGlucose98 : BloodworkMarker :=
  ⟨"Glucose", 98, "mg/dL", none, none, none⟩

/-- HDL 55 after alias normalization. -/
def mHDL55 : BloodworkMarker :=
  ⟨"HDL Cholesterol", 55, "mg/dL", none, none, none⟩

/-- A structured-parser reply with one Glucose 95 entry and a confidence of
5, far above the unit interval. -/
def llmConf5 : LLMReply :=
  { markers := [{ name := some "Glucose", value := some (.num 95),
                  unit := some "mg/dL", reference_low := none,
                  reference_high := none, flag := none }],
    confidence := some 5 }

/-- A page whose recognition succeeds and whose structured parser replies
with llmConf5. -/
def oracleConf5 : PageOracle :=
  { grid := fun s p => if s = .standard && p = 3 then some textA else none,
    raw := none, llm := .ok llmConf5, vision := .fail }

/-- Page 1 of the multi-page aggregation scenario: Glucose 95. -/
def oraclePage1 : PageOracle :=
  { grid := fun s p => if s = .standard && p = 3 then some textA else none,
    raw := none,
    llm := .ok { markers := [{ name := some "Glucose",
                               value := some (.num 95), unit := some "mg/dL",
                               reference_low := none, reference_high := none,
                               flag := none }],
                 confidence := some 1 },
    vision := .fail }

/-- Page 2 of the multi-page aggregation scenario: Glucose 98 and HDL 55. -/
def oraclePage2 : PageOracle :=
  { grid := fun s p => if s = .standard && p = 3 then some textA else none,
    raw := none,
    llm := .ok { markers := [{ name := some "Glucose",
                               value := some (.num 98), unit := some "mg/dL",
                               reference_low := none, reference_high := none,
                               flag := none },
                             { name := some "HDL",
                               value := some (.num 55), unit := some "mg/dL",
                               reference_low := none, reference_high := none,
                               flag := none }],
                 confidence := some 1 },
    vision := .fail }

/-- A fully valid vision reply entry. -/
def vmGood : RawVisionMarker :=
  { name := "Glucose", value := .num 95, unit := "mg/dL",
    reference_low := none, reference_high := none, flag := none }

/-- A vision reply entry whose value does not parse as a number. -/
def vmBad : RawVisionMarker :=
  { name := "HDL", value := .str "N/A", unit := "mg/dL",
    reference_low := none, reference_high := none, flag := none }

/-- A vision reply entry whose declared name is whitespace only: it passes
the length check (one character) and is then stripped to the empty
string. -/
def vmBlankName : RawVisionMarker :=
  { name := " ", value := .num 42, unit := "mg", reference_low := none,
    reference_high := none, flag := none }

/-- A page on which recognition finds nothing, sending the pipeline to the
vision fallback, whose reply carries the whitespace-named entry. -/
def oracleBlankName : PageOracle :=
  { grid := fun _ _ => none, raw := none, llm := .error (),
    vision := .json [vmBlankName] none (some 1) }

/-- A page with a short recognized text and a vision reply that reports its
own raw_text: used to observe that the vision text is discarded. -/
def oracleVisionText : PageOracle :=
  { grid := fun _ _ => none, raw := some "tiny", llm := .error (),
    vision := .json [vmGood] (some "VISION MODEL TEXT") (some 1) }

/-! ## Grid-search lemmas -/

theorem gridStep_score (grid : Strategy → Nat → Option String)
    (acc : String × ℕ) (sp : Strategy × Nat) (h : acc.2 = tscore acc.1) :
    (gridStep grid acc sp).2 = tscore (gridStep grid acc sp).1 := by
  unfold gridStep
  cases grid sp.1 sp.2 with
  | none => exact h
  | some t =>
      by_cases hlt : acc.2 < tscore (pyStrip t)
      · simp only [if_pos hlt]
      · simp only [if_neg hlt]; exact h

theorem gridStep_mono (grid : Strategy → Nat → Option String)
    (acc : String × ℕ) (sp : Strategy × Nat) :
    acc.2 ≤ (gridStep grid acc sp).2 := by
  unfold gridStep
  cases grid sp.1 sp.2 with
  | none => exact le_refl _
  | some t =>
      by_cases hlt : acc.2 < tscore (pyStrip t)
      · simp [hlt]; omega
      · simp [hlt]

theorem gridStep_covers (grid : Strategy → Nat → Option String)
    (acc : String × ℕ) (sp : Strategy × Nat) (t : String)
    (h : grid sp.1 sp.2 = some t) :
    tscore (pyStrip t) ≤ (gridStep grid acc sp).2 := by
  unfold gridStep
  rw [h]
  by_cases hlt : acc.2 < tscore (pyStrip t)
  · simp [hlt]
  · simp [hlt]; omega

theorem gridFold_score (grid : Strategy → Nat → Option String) :
    ∀ (l : List (Strategy × Nat)) (acc : String × ℕ),
      acc.2 = tscore acc.1 →
      (l.foldl (gridStep grid) acc).2 = tscore (l.foldl (gridStep grid) acc).1 ∧
      acc.2 ≤ (l.foldl (gridStep grid) acc).2 ∧
      ∀ sp ∈ l, ∀ t, grid sp.1 sp.2 = some t →
        tscore (pyStrip t) ≤ (l.foldl (gridStep grid) acc).2 := by
  intro l
  induction l with
  | nil => intro acc h; refine ⟨h, le_refl _, ?_⟩; intro sp hsp; cases hsp
  | cons sp rest ih =>
      intro acc h
      have hstep := gridStep_score grid acc sp h
      obtain ⟨h1, h2, h3⟩ := ih (gridStep grid acc sp) hstep
      refine ⟨h1, le_trans (gridStep_mono grid acc sp) h2, ?_⟩
      intro sp2 hsp2 t ht
      rcases List.mem_cons.mp hsp2 with rfl | hmem
      · exact le_trans (gridStep_covers grid acc sp2 t ht) h2
      · exact h3 sp2 hmem t ht

/-- C5: for every page, the text selected by the grid search of
extract_text_tesseract has a score (character count plus twice the digit
count) at least the score of each of the 9 attempted (strategy, layout
mode) combinations that produced a reply; the score of an attempt is that
of its stripped reply text. -/
theorem c5_grid_selected_score_maximal (grid : Strategy → Nat → Option String)
    (raw : Option String) (s : Strategy) (p : Nat) (t : String)
    (hmem : (s, p) ∈ gridOrder) (h : grid s p = some t) :
    tscore (pyStrip t) ≤ tscore (extract_text_tesseract grid raw) := by
  unfold extract_text_tesseract
  obtain ⟨h1, _, h3⟩ :=
    gridFold_score grid gridOrder ("", 0) (by decide)
  have hcover := h3 (s, p) hmem t h
  by_cases hb : (gridOrder.foldl (gridStep grid) ("", 0)).1 = ""
  · have hzero : (gridOrder.foldl (gridStep grid) ("", 0)).2 = 0 := by
      rw [h1, hb]; decide
    rw [hzero] at hcover
    simp [hb]
    omega
  · simp [hb]
    rw [h1] at hcover
    exact hcover

/-- C5 witness: the (standard, psm 3) attempt of a concrete grid is scored
no higher than the selected text. -/
theorem c5_witness :
    tscore (pyStrip textA) ≤
      tscore (extract_text_tesseract oracleConf5.grid oracleConf5.raw) :=
  c5_grid_selected_score_maximal oracleConf5.grid oracleConf5.raw
    .standard 3 textA (by decide) (by decide)

/-- C3: evaluating the regex fallback extractor on the raw text of the spec
scenario.  The spec says it returns the HDL Cholesterol and LDL Cholesterol
markers; instead both lines match only pattern 2, and the accepted pattern-2
match reaches the unconditional match.group call for the group ref_low,
which pattern 2 does not define, raising IndexError (modelled as the error
value) out of the function.  The two markers are never produced (and even
with that access guarded, the empty captured unit would fail the schema
validation of both markers). -/
theorem c3_regex_scenario_raises :
    extract_markers_regex "HDL: 55\nLDL: 130" = .error () := by decide

/-- C1: whenever decoding fails on the branch the file is routed to (a
corrupt PDF on the PDF branch, unreadable or empty bytes on the image
branch), process_single_file returns the response with no markers, null
raw text and confidence 0.0; by construction the embedded function is
total, reflecting the outer handler that converts every exception into
this same response. -/
theorem c1_decode_failure_empty_response (filename content_type : String)
    (pdfPages : Except Unit (List PageOracle))
    (imagePage : Except Unit PageOracle)
    (h : if content_type = "application/pdf" || pyEndsWith (pyLower filename) ".pdf"
         then pdfPages = Except.error ()
         else imagePage = Except.error ()) :
    process_single_file filename content_type pdfPages imagePage
      = emptyResponse := by
  unfold process_single_file
  split
  case isTrue hc =>
      rw [if_pos hc] at h
      rw [h]
  case isFalse hc =>
      rw [if_neg hc] at h
      rw [h]

/-- C1 witness: zero-length bytes declared as a PDF decode to an error and
yield the empty response. -/
theorem c1_witness :
    process_single_file "empty.pdf" "application/pdf"
      (Except.error ()) (Except.error ()) = emptyResponse :=
  c1_decode_failure_empty_response "empty.pdf" "application/pdf"
    (Except.error ()) (Except.error ()) (by simp)

/-- C10: the per-page text returned by process_image_ocr is always the
Tesseract text, for every oracle and in particular for every vision reply:
the vision raw_text component is bound to an ignored variable at line 547
of the source. -/
theorem c10_raw_text_is_tesseract_text (o : PageOracle) (b : Bool)
    (res : List BloodworkMarker × String × ℚ)
    (h : process_image_ocr o b = .ok res) :
    res.2.1 = extract_text_tesseract o.grid o.raw := by
  simp only [process_image_ocr] at h
  split at h
  · exact absurd h (by simp)
  · injection h with h2
    rw [← h2]

/-- C10 witness: a run whose markers come from the vision fallback and
whose vision reply reports its own raw_text still returns the Tesseract
text (here the last-resort attempt text). -/
theorem c10_witness :
    (([mGlucose95], "tiny", (1 : ℚ)) :
        List BloodworkMarker × String × ℚ).2.1 =
      extract_text_tesseract oracleVisionText.grid oracleVisionText.raw :=
  c10_raw_text_is_tesseract_text oracleVisionText true
    ([mGlucose95], "tiny", 1) (by decide)

/-! ## Deduplication lemmas (aggregator dict semantics) -/

theorem map_replace_keys (l : List (String × BloodworkMarker)) (k : String)
    (m : BloodworkMarker) :
    (l.map (fun p => if p.1 = k then (p.1, m) else p)).map Prod.fst
      = l.map Prod.fst := by
  induction l with
  | nil => rfl
  | cons p t ih => by_cases hp : p.1 = k <;> simp [hp, ih]

theorem filter_keys_nil (l : List (String × BloodworkMarker)) (k : String)
    (h : ∀ p ∈ l, p.1 ≠ k) :
    l.filter (fun p => p.1 = k) = [] := by
  induction l with
  | nil => rfl
  | cons p t ih =>
      have hp := h p (List.mem_cons_self p t)
      simp only [List.filter_cons]
      rw [if_neg (by simp [hp])]
      exact ih (fun q hq => h q (List.mem_cons_of_mem p hq))

theorem filter_map_replace_ne (l : List (String × BloodworkMarker))
    (k0 k : String) (m : BloodworkMarker) (hne : k0 ≠ k) :
    (l.map (fun p => if p.1 = k0 then (p.1, m) else p)).filter
        (fun p => p.1 = k)
      = l.filter (fun p => p.1 = k) := by
  induction l with
  | nil => rfl
  | cons p t ih =>
      by_cases hp : p.1 = k0
      · have hpk : ¬p.1 = k := by rw [hp]; exact hne
        simp [hp, hpk, hne, ih]
      · by_cases hpk : p.1 = k
        · simp [hp, hpk, Ne.symm hne, ih]
        · simp [hp, hpk, ih]

theorem filter_map_replace_eq (l : List (String × BloodworkMarker))
    (k : String) (m : BloodworkMarker)
    (hnd : (l.map Prod.fst).Nodup) (hmem : ∃ p ∈ l, p.1 = k) :
    (l.map (fun p => if p.1 = k then (p.1, m) else p)).filter
        (fun p => p.1 = k)
      = [(k, m)] := by
  induction l with
  | nil => obtain ⟨p, hp, _⟩ := hmem; cases hp
  | cons p t ih =>
      simp only [List.map_cons, List.nodup_cons] at hnd
      by_cases hp : p.1 = k
      · subst hp
        have htail : ∀ q ∈ t.map (fun p2 =>
            if p2.1 = p.1 then (p2.1, m) else p2), q.1 ≠ p.1 := by
          intro q hq
          obtain ⟨q0, hq0, rfl⟩ := List.mem_map.mp hq
          by_cases hq1 : q0.1 = p.1
          · simp only [if_pos hq1]
            intro hcon
            exact hnd.1 (List.mem_map.mpr ⟨q0, hq0, hq1⟩)
          · simp only [if_neg hq1]
            intro hcon
            exact hnd.1 (List.mem_map.mpr ⟨q0, hq0, hcon⟩)
        simp only [List.map_cons, if_pos rfl, List.filter_cons]
        rw [if_pos (by simp)]
        rw [filter_keys_nil _ _ htail]
        simp
      · obtain ⟨q, hq, hqk⟩ := hmem
        rcases List.mem_cons.mp hq with rfl | hqt
        · exact absurd hqk hp
        · simp only [List.map_cons, if_neg hp, List.filter_cons]
          rw [if_neg (by simp [hp])]
          exact ih hnd.2 ⟨q, hqt, hqk⟩

theorem filter_upsert (acc : List (String × BloodworkMarker))
    (m : BloodworkMarker) (k : String)
    (hnd : (acc.map Prod.fst).Nodup) :
    (upsertMarker acc m).filter (fun p => p.1 = k) =
      if pyLower m.name = k then [(pyLower m.name, m)]
      else acc.filter (fun p => p.1 = k) := by
  simp only [upsertMarker]
  split
  case isTrue hany =>
      have hmem : ∃ p ∈ acc, p.1 = pyLower m.name := by
        simpa using List.any_eq_true.mp hany
      by_cases hk : pyLower m.name = k
      · subst hk
        rw [if_pos rfl]
        exact filter_map_replace_eq acc _ m hnd hmem
      · rw [filter_map_replace_ne acc _ k m hk, if_neg hk]
  case isFalse hany =>
      have hnot : ∀ p ∈ acc, p.1 ≠ pyLower m.name := by
        intro p hp hcon
        exact hany (List.any_eq_true.mpr ⟨p, hp, by simp [hcon]⟩)
      rw [List.filter_append]
      by_cases hk : pyLower m.name = k
      · subst hk
        rw [if_pos rfl, filter_keys_nil acc _ hnot]
        simp
      · rw [if_neg hk]
        simp [hk]

theorem upsert_nodup (acc : List (String × BloodworkMarker))
    (m : BloodworkMarker) (hnd : (acc.map Prod.fst).Nodup) :
    ((upsertMarker acc m).map Prod.fst).Nodup := by
  simp only [upsertMarker]
  split
  case isTrue hany => rw [map_replace_keys]; exact hnd
  case isFalse hany =>
      have hnot : ∀ p ∈ acc, p.1 ≠ pyLower m.name := by
        intro p hp hcon
        exact hany (List.any_eq_true.mpr ⟨p, hp, by simp [hcon]⟩)
      rw [List.map_append]
      simp only [List.map_cons, List.map_nil]
      rw [List.nodup_append]
      refine ⟨hnd, List.nodup_singleton _, ?_⟩
      intro x hx
      obtain ⟨p, hp, rfl⟩ := List.mem_map.mp hx
      simp [hnot p hp]

theorem upsert_wf (acc : List (String × BloodworkMarker))
    (m : BloodworkMarker) (hwf : ∀ p ∈ acc, p.1 = pyLower p.2.name) :
    ∀ p ∈ upsertMarker acc m, p.1 = pyLower p.2.name := by
  simp only [upsertMarker]
  split
  case isTrue hany =>
      intro p hp
      obtain ⟨q, hq, rfl⟩ := List.mem_map.mp hp
      by_cases hq1 : q.1 = pyLower m.name
      · simp [hq1]
      · simp only [if_neg hq1]
        exact hwf q hq
  case isFalse hany =>
      intro p hp
      rcases List.mem_append.mp hp with hp2 | hp2
      · exact hwf p hp2
      · rcases List.mem_singleton.mp hp2 with rfl
        rfl

theorem foldl_upsert_nodup (ms : List BloodworkMarker) :
    ∀ acc, (acc.map Prod.fst).Nodup →
      ((ms.foldl upsertMarker acc).map Prod.fst).Nodup := by
  induction ms with
  | nil => intro acc h; exact h
  | cons m t ih =>
      intro acc h
      rw [List.foldl_cons]
      exact ih _ (upsert_nodup acc m h)

theorem foldl_upsert_wf (ms : List BloodworkMarker) :
    ∀ acc, (∀ p ∈ acc, p.1 = pyLower p.2.name) →
      ∀ p ∈ ms.foldl upsertMarker acc, p.1 = pyLower p.2.name := by
  induction ms with
  | nil => intro acc h; exact h
  | cons m t ih =>
      intro acc h
      rw [List.foldl_cons]
      exact ih _ (upsert_wf acc m h)

theorem foldl_upsert_filter (k : String) (ms : List BloodworkMarker) :
    ∀ acc, (acc.map Prod.fst).Nodup →
      (ms.foldl upsertMarker acc).filter (fun p => p.1 = k) =
        match (ms.filter (fun m => pyLower m.name = k)).getLast? with
        | some m => [(k, m)]
        | none => acc.filter (fun p => p.1 = k) := by
  induction ms with
  | nil => intro acc _; rfl
  | cons m t ih =>
      intro acc hnd
      rw [List.foldl_cons, ih _ (upsert_nodup acc m hnd)]
      by_cases hk : pyLower m.name = k
      · rw [List.filter_cons, if_pos (by simp [hk])]
        cases hfl : t.filter (fun x => pyLower x.name = k) with
        | nil =>
            simp only [List.getLast?_nil, List.getLast?_singleton]
            rw [filter_upsert acc m k hnd, if_pos hk, hk]
        | cons x xs =>
            rw [List.getLast?_cons_cons]
            cases hlast : (x :: xs).getLast? with
            | none => simp at hlast
            | some y => rfl
      · rw [List.filter_cons, if_neg (by simp [hk])]
        cases hfl : (t.filter (fun x => pyLower x.name = k)).getLast? with
        | none =>
            simp only []
            rw [filter_upsert acc m k hnd, if_neg hk]
        | some y => rfl

theorem map_snd_filter_key (l : List (String × BloodworkMarker)) (k : String)
    (hwf : ∀ p ∈ l, p.1 = pyLower p.2.name) :
    (l.map (fun p => p.2)).filter (fun x => pyLower x.name = k) =
      (l.filter (fun p => p.1 = k)).map (fun p => p.2) := by
  induction l with
  | nil => rfl
  | cons p t ih =>
      have hp := hwf p (List.mem_cons_self p t)
      have iht := ih (fun q hq => hwf q (List.mem_cons_of_mem p hq))
      by_cases hk : p.1 = k
      · have : pyLower p.2.name = k := by rw [← hp]; exact hk
        simp [this, hk, iht]
      · have : ¬pyLower p.2.name = k := by rw [← hp]; exact hk
        simp [this, hk, iht]

/-- C4: the aggregation step of process_single_file keeps, for every
lowercase-normalized name, exactly the last-encountered marker of that name
in page order; and on the concrete two-page scenario (page 1 Glucose 95,
page 2 Glucose 98 and HDL 55) the whole pipeline returns exactly one
Glucose entry with value 98 and one HDL Cholesterol entry with value 55. -/
theorem c4_dedup_last_encountered_wins :
    (∀ (ms : List BloodworkMarker) (k : String),
        (dedupMarkers ms).filter (fun x => pyLower x.name = k) =
          ((ms.filter (fun x => pyLower x.name = k)).getLast?).toList) ∧
      (process_single_file "labs.pdf" "application/pdf"
          (.ok [oraclePage1, oraclePage2]) (.error ())).markers =
        [mGlucose98, mHDL55] := by
  constructor
  · intro ms k
    unfold dedupMarkers
    rw [map_snd_filter_key _ k (foldl_upsert_wf ms [] (by simp))]
    rw [foldl_upsert_filter k ms [] (by simp)]
    cases hfl : (ms.filter (fun x => pyLower x.name = k)).getLast? <;> simp
  · decide

/-! ## Vision-stage all-or-nothing behaviour -/

theorem mapMarkers_eq_none (ms : List RawVisionMarker)
    (hbad : ∃ m ∈ ms, mkVisionMarker m = none) :
    mapMarkers ms = none := by
  induction ms with
  | nil => simp at hbad
  | cons m t ih =>
      obtain ⟨b, hb, hbn⟩ := hbad
      rcases List.mem_cons.mp hb with rfl | hmem
      · simp [mapMarkers, hbn]
      · cases hm : mkVisionMarker m with
        | none => simp [mapMarkers, hm]
        | some x => simp [mapMarkers, hm, ih ⟨b, hmem, hbn⟩]

/-- C6 counterexample: the claim says that in the vision fallback a single
entry with an unparsable value is dropped individually while its siblings
are kept.  On the concrete reply carrying one fully valid entry (Glucose
95 mg/dL) and one entry with value "N/A", the stage returns no markers at
all — the valid sibling is lost — although the same valid entry alone
produces a marker. -/
theorem c6_counterexample :
    process_with_vision (.json [vmGood, vmBad] (some "text") (some 1)) =
        ([], none, 0) ∧
      process_with_vision (.json [vmGood] (some "text") (some 1)) =
        ([⟨"Glucose", 95, "mg/dL", none, none, none⟩], some "text", 1) := by
  constructor
  · decide
  · decide

/-- C6 amended: in the vision fallback there is no per-marker coercion: a
reply containing any entry that fails validation (unparsable value
included) loses the entire reply — every sibling marker is discarded and
the stage reports ([], none, 0.0).  Per-marker dropping happens only in the
structured parser. -/
theorem c6_amended_invalid_entry_discards_reply (ms : List RawVisionMarker)
    (rt : Option String) (conf : Option ℚ)
    (hbad : ∃ m ∈ ms, mkVisionMarker m = none) :
    process_with_vision (.json ms rt conf) = ([], none, 0) := by
  simp only [process_with_vision]
  rw [mapMarkers_eq_none ms hbad]

/-- C6 witness: the amended statement applied to the one-bad-entry reply. -/
theorem c6_witness :
    process_with_vision (.json [vmBad] none none) = ([], none, 0) :=
  c6_amended_invalid_entry_discards_reply [vmBad] none none
    ⟨vmBad, List.mem_singleton.mpr rfl, by decide⟩

/-! ## Size-normalization bounds -/

/-- C7 counterexample: the claim says that after size normalization the
smaller dimension is at least the 1500 px floor and the larger at most the
4000 px ceiling.  A 1000 by 3000 image is first upscaled to 1500 by 4500,
then the ceiling pass shrinks it to 1333 by 4000: its smaller dimension
ends below the floor. -/
theorem c7_counterexample :
    sizeNormalize 1000 3000 = (1333, 4000) ∧ 1333 < 1500 := by
  decide

theorem sizeNormalize_floor_of_aspect (w h : ℕ) (hw : 0 < w)
    (hh : 0 < h) (hasp : 3 * max w h ≤ 8 * min w h) :
    1500 ≤ min (sizeNormalize w h).1 (sizeNormalize w h).2 ∧
      max (sizeNormalize w h).1 (sizeNormalize w h).2 ≤ 4000 := by
  rcases le_total w h with hwh | hwh
  · rw [min_eq_left hwh, max_eq_right hwh] at hasp
    unfold sizeNormalize
    rw [min_eq_left hwh]
    by_cases h1 : w < 1500
    · rw [if_pos h1]
      have e1 : w * 1500 / w = 1500 := by
        rw [mul_comm]; exact Nat.mul_div_cancel _ hw
      have e2 : 1500 ≤ h * 1500 / w := by
        calc (1500 : ℕ) = w * 1500 / w := e1.symm
          _ ≤ h * 1500 / w := Nat.div_le_div_right (Nat.mul_le_mul_right _ hwh)
      have e3 : h * 1500 / w ≤ 4000 := by
        have hle : h * 1500 ≤ 4000 * w := by omega
        calc h * 1500 / w ≤ 4000 * w / w := Nat.div_le_div_right hle
          _ = 4000 := Nat.mul_div_cancel _ hw
      have emax : max (w * 1500 / w) (h * 1500 / w) = h * 1500 / w := by
        rw [e1]; exact max_eq_right e2
      rw [if_neg (by rw [emax]; omega)]
      rw [emax, e1]
      constructor
      · rw [min_eq_left e2]
      · exact e3
    · rw [if_neg h1]
      by_cases h2 : 4000 < max w h
      · rw [if_pos h2]
        rw [max_eq_right hwh] at h2 ⊢
        have hhpos : 0 < h := hh
        have e1 : h * 4000 / h = 4000 := by
          rw [mul_comm]; exact Nat.mul_div_cancel _ hhpos
        have e2 : w * 4000 / h ≤ 4000 := by
          calc w * 4000 / h ≤ h * 4000 / h :=
                Nat.div_le_div_right (Nat.mul_le_mul_right _ hwh)
            _ = 4000 := e1
        have e3 : 1500 ≤ w * 4000 / h := by
          have hle : 1500 * h ≤ w * 4000 := by omega
          calc (1500 : ℕ) = 1500 * h / h := by
                rw [Nat.mul_div_cancel _ hhpos]
            _ ≤ w * 4000 / h := Nat.div_le_div_right hle
        constructor
        · rw [min_eq_left (by rw [e1]; exact e2)]
          exact e3
        · rw [e1, max_eq_right e2]
      · rw [if_neg h2]
        rw [max_eq_right hwh] at h2
        constructor
        · rw [min_eq_left hwh]; omega
        · rw [max_eq_right hwh]; omega
  · rw [min_eq_right hwh, max_eq_left hwh] at hasp
    unfold sizeNormalize
    rw [min_eq_right hwh]
    by_cases h1 : h < 1500
    · rw [if_pos h1]
      have e1 : h * 1500 / h = 1500 := by
        rw [mul_comm]; exact Nat.mul_div_cancel _ hh
      have e2 : 1500 ≤ w * 1500 / h := by
        calc (1500 : ℕ) = h * 1500 / h := e1.symm
          _ ≤ w * 1500 / h := Nat.div_le_div_right (Nat.mul_le_mul_right _ hwh)
      have e3 : w * 1500 / h ≤ 4000 := by
        have hle : w * 1500 ≤ 4000 * h := by omega
        calc w * 1500 / h ≤ 4000 * h / h := Nat.div_le_div_right hle
          _ = 4000 := Nat.mul_div_cancel _ hh
      have emax : max (w * 1500 / h) (h * 1500 / h) = w * 1500 / h := by
        rw [e1]; exact max_eq_left e2
      rw [if_neg (by rw [emax]; omega)]
      rw [emax, e1]
      constructor
      · rw [min_eq_right e2]
      · exact e3
    · rw [if_neg h1]
      by_cases h2 : 4000 < max w h
      · rw [if_pos h2]
        rw [max_eq_left hwh] at h2 ⊢
        have e1 : w * 4000 / w = 4000 := by
          rw [mul_comm]; exact Nat.mul_div_cancel _ hw
        have e2 : h * 4000 / w ≤ 4000 := by
          calc h * 4000 / w ≤ w * 4000 / w :=
                Nat.div_le_div_right (Nat.mul_le_mul_right _ hwh)
            _ = 4000 := e1
        have e3 : 1500 ≤ h * 4000 / w := by
          have hle : 1500 * w ≤ h * 4000 := by omega
          calc (1500 : ℕ) = 1500 * w / w := by
                rw [Nat.mul_div_cancel _ hw]
            _ ≤ h * 4000 / w := Nat.div_le_div_right hle
        constructor
        · rw [min_eq_right (by rw [e1]; exact e2)]
          exact e3
        · rw [e1, max_eq_left e2]
      · rw [if_neg h2]
        rw [max_eq_left hwh] at h2
        constructor
        · rw [min_eq_right hwh]; omega
        · rw [max_eq_left hwh]; omega

theorem scale_ceiling (a b : ℕ) (h : 4000 < max a b) :
    max (a * 4000 / max a b) (b * 4000 / max a b) ≤ 4000 := by
  have hM : 0 < max a b := by omega
  have ha : a * 4000 / max a b ≤ 4000 := by
    calc a * 4000 / max a b ≤ max a b * 4000 / max a b :=
        Nat.div_le_div_right (Nat.mul_le_mul_right _ (le_max_left a b))
      _ = 4000 := by rw [mul_comm]; exact Nat.mul_div_cancel _ hM
  have hb : b * 4000 / max a b ≤ 4000 := by
    calc b * 4000 / max a b ≤ max a b * 4000 / max a b :=
        Nat.div_le_div_right (Nat.mul_le_mul_right _ (le_max_right a b))
      _ = 4000 := by rw [mul_comm]; exact Nat.mul_div_cancel _ hM
  exact max_le ha hb

theorem sizeNormalize_ceiling (w h : ℕ) :
    max (sizeNormalize w h).1 (sizeNormalize w h).2 ≤ 4000 := by
  unfold sizeNormalize
  by_cases h1 : min w h < 1500
  · rw [if_pos h1]
    by_cases h2 : 4000 < max (w * 1500 / min w h) (h * 1500 / min w h)
    · rw [if_pos h2]
      exact scale_ceiling _ _ h2
    · rw [if_neg h2]
      omega
  · rw [if_neg h1]
    by_cases h2 : 4000 < max w h
    · rw [if_pos h2]
      exact scale_ceiling _ _ h2
    · rw [if_neg h2]
      omega

/-- C7 amended: for every image the size-normalization step bounds the
larger dimension by the 4000 px ceiling from above (the ceiling pass runs
last, so this holds unconditionally); the smaller dimension is bounded by
the 1500 px floor from below provided the aspect ratio (larger over
smaller dimension) is at most 4000 / 1500 = 8 / 3, the range on which both
constraints are jointly satisfiable.  Dimensions are rescaled by one
common ratio and truncated to integers.  For wider ratios the floor fails,
as the counterexample shows. -/
theorem c7_amended_ceiling_and_conditional_floor (w h : ℕ) (hw : 0 < w)
    (hh : 0 < h) :
    max (sizeNormalize w h).1 (sizeNormalize w h).2 ≤ 4000 ∧
      (3 * max w h ≤ 8 * min w h →
        1500 ≤ min (sizeNormalize w h).1 (sizeNormalize w h).2) := by
  constructor
  · exact sizeNormalize_ceiling w h
  · intro hasp
    exact (sizeNormalize_floor_of_aspect w h hw hh hasp).1

/-- C7 witness: a 2000 by 3000 page keeps the ceiling, and its aspect
ratio admits the floor. -/
theorem c7_witness :
    max (sizeNormalize 2000 3000).1 (sizeNormalize 2000 3000).2 ≤ 4000 ∧
      (3 * max 2000 3000 ≤ 8 * min 2000 3000 →
        1500 ≤ min (sizeNormalize 2000 3000).1 (sizeNormalize 2000 3000).2) :=
  c7_amended_ceiling_and_conditional_floor 2000 3000 (by decide) (by decide)

/-! ## Confidence-bound lemmas -/

theorem roundHalfEven_bounds (q : ℚ) (h0 : 0 ≤ q) (h1 : q ≤ 100) :
    0 ≤ roundHalfEven q ∧ roundHalfEven q ≤ 100 := by
  simp only [roundHalfEven]
  have hf0 : 0 ≤ ⌊q⌋ := Int.floor_nonneg.mpr h0
  have hfq : (⌊q⌋ : ℚ) ≤ q := Int.floor_le q
  have hf100 : ⌊q⌋ ≤ 100 := by
    have := Int.floor_le_floor h1
    simpa using this
  split_ifs with hr1 hr2 hpar
  · exact ⟨hf0, hf100⟩
  · constructor
    · omega
    · have hflt : (⌊q⌋ : ℚ) < 100 := by linarith
      have : ⌊q⌋ < 100 := by exact_mod_cast hflt
      omega
  · exact ⟨hf0, hf100⟩
  · constructor
    · omega
    · have hreq : q - ⌊q⌋ = 1 / 2 := le_antisymm (not_lt.mp hr2) (not_lt.mp hr1)
      have hflt : (⌊q⌋ : ℚ) < 100 := by linarith
      have : ⌊q⌋ < 100 := by exact_mod_cast hflt
      omega

theorem round2_bounds (q : ℚ) (h0 : 0 ≤ q) (h1 : q ≤ 1) :
    0 ≤ round2 q ∧ round2 q ≤ 1 := by
  unfold round2
  have hq0 : 0 ≤ q * 100 := by linarith
  have hq1 : q * 100 ≤ 100 := by linarith
  obtain ⟨hl, hu⟩ := roundHalfEven_bounds (q * 100) hq0 hq1
  constructor
  · positivity
  · rw [div_le_one (by norm_num)]
    exact_mod_cast hu

theorem llm_conf_bounds (rep : Except Unit LLMReply)
    (hrep : ∀ r c, rep = .ok r → r.confidence = some c → 0 ≤ c ∧ c ≤ 1) :
    0 ≤ (parse_markers_with_llm rep).2 ∧ (parse_markers_with_llm rep).2 ≤ 1 := by
  cases rep with
  | error e => simp [parse_markers_with_llm]
  | ok r =>
      simp only [parse_markers_with_llm]
      cases hc : r.confidence with
      | none =>
          simp only [Option.getD]
          split_ifs <;> norm_num
      | some c => simpa using hrep r c rfl hc

theorem vision_conf_bounds (o : VisionOutcome)
    (hv : ∀ ms rt c, o = .json ms rt (some c) → 0 ≤ c ∧ c ≤ 1) :
    0 ≤ (process_with_vision o).2.2 ∧ (process_with_vision o).2.2 ≤ 1 := by
  cases o with
  | fail => simp [process_with_vision]
  | prose c => simp [process_with_vision]; norm_num
  | json ms rt conf =>
      simp only [process_with_vision]
      cases mapMarkers ms with
      | none => simp
      | some markers =>
          cases hc : conf with
          | none => simp [Option.getD]; norm_num
          | some c => simpa using hv ms rt c (by rw [hc])

theorem page_conf_cases (o : PageOracle) (b : Bool)
    (res : List BloodworkMarker × String × ℚ)
    (h : process_image_ocr o b = .ok res) :
    res.2.2 = (parse_markers_with_llm o.llm).2 ∨ res.2.2 = 0 ∨
      res.2.2 = 1 / 2 ∨ res.2.2 = (process_with_vision o.vision).2.2 := by
  simp only [process_image_ocr] at h
  have hs1 : (if 50 < (extract_text_tesseract o.grid o.raw).length
        then parse_markers_with_llm o.llm else ([], 0)).2
          = (parse_markers_with_llm o.llm).2 ∨
      (if 50 < (extract_text_tesseract o.grid o.raw).length
        then parse_markers_with_llm o.llm else ([], 0)).2 = 0 := by
    split_ifs
    · left; rfl
    · right; rfl
  set s1 := if 50 < (extract_text_tesseract o.grid o.raw).length
      then parse_markers_with_llm o.llm else ([], 0) with hs1def
  split at h
  · exact absurd h (by simp)
  · rename_i s2 heq
    injection h with h2
    rw [← h2]
    simp only []
    split_ifs with hvis
    · right; right; right; rfl
    · split at heq
      · split at heq
        · exact absurd heq (by simp)
        · rename_i ms hms
          injection heq with heq2
          rw [← heq2]
          split_ifs with hempty
          · rcases hs1 with hs | hs
            · left; exact hs
            · right; left; exact hs
          · right; right; left; rfl
      · injection heq with heq2
        rw [← heq2]
        rcases hs1 with hs | hs
        · left; exact hs
        · right; left; exact hs

theorem page_conf_bounds (o : PageOracle) (b : Bool)
    (res : List BloodworkMarker × String × ℚ)
    (h : process_image_ocr o b = .ok res) (hok : ReplyConfOK o) :
    0 ≤ res.2.2 ∧ res.2.2 ≤ 1 := by
  rcases page_conf_cases o b res h with hc | hc | hc | hc
  · rw [hc]; exact llm_conf_bounds o.llm hok.1
  · rw [hc]; norm_num
  · rw [hc]; norm_num
  · rw [hc]; exact vision_conf_bounds o.vision hok.2

theorem mapPages_ok (f : PageOracle → Except Unit (List BloodworkMarker × String × ℚ)) :
    ∀ (ps : List PageOracle) (rs), mapPages f ps = .ok rs →
      rs.length = ps.length ∧ ∀ r ∈ rs, ∃ o ∈ ps, f o = .ok r := by
  intro ps
  induction ps with
  | nil =>
      intro rs h
      simp only [mapPages] at h
      injection h with h2
      subst h2
      exact ⟨rfl, by simp⟩
  | cons o t ih =>
      intro rs h
      simp only [mapPages] at h
      split at h
      · exact absurd h (by simp)
      case h_2 r hr =>
          split at h
          · exact absurd h (by simp)
          case h_2 rs2 hrs2 =>
              injection h with h2
              subst h2
              obtain ⟨hlen, hmem⟩ := ih rs2 hrs2
              refine ⟨by simp [hlen], ?_⟩
              intro x hx
              rcases List.mem_cons.mp hx with rfl | hx2
              · exact ⟨o, List.mem_cons_self o t, hr⟩
              · obtain ⟨o2, ho2, hfo2⟩ := hmem x hx2
                exact ⟨o2, List.mem_cons_of_mem o ho2, hfo2⟩

theorem sum_bounds (l : List ℚ) (h : ∀ x ∈ l, 0 ≤ x ∧ x ≤ 1) :
    0 ≤ l.sum ∧ l.sum ≤ (l.length : ℚ) := by
  induction l with
  | nil => simp
  | cons x t ih =>
      obtain ⟨hx0, hx1⟩ := h x (List.mem_cons_self x t)
      obtain ⟨ht0, ht1⟩ := ih (fun y hy => h y (List.mem_cons_of_mem x hy))
      simp only [List.sum_cons, List.length_cons]
      push_cast
      constructor <;> linarith

theorem aggregate_confidence (a : List BloodworkMarker) (p : List String)
    (t : ℚ) (n : ℕ) :
    (aggregate a p t n).confidence =
      round2 (if 0 < n then t / (n : ℚ) else 0) := rfl

/-- C2 counterexample: the claim says the response confidence lies in
[0, 1] for every reply the remote endpoints may return, including replies
whose confidence field is outside that interval.  On a run whose
structured-parser reply carries markers and confidence 5, the value is
passed through unclamped (neither the parser, the aggregator, the rounding
nor the response schema bounds it) and the response confidence is 5. -/
theorem c2_counterexample :
    (process_single_file "report.jpg" "image/jpeg" (.error ())
        (.ok oracleConf5)).confidence = 5 ∧
      ¬(process_single_file "report.jpg" "image/jpeg" (.error ())
          (.ok oracleConf5)).confidence ≤ 1 := by
  have h : process_image_ocr oracleConf5 true = .ok ([mGlucose95], textA, 5) := by
    decide
  have hconf : (process_single_file "report.jpg" "image/jpeg" (.error ())
      (.ok oracleConf5)).confidence = 5 := by
    simp +decide [process_single_file, pyEndsWith, pyLower, h, aggregate,
      emptyResponse]
    norm_num [round2, roundHalfEven]
  exact ⟨hconf, by rw [hconf]; norm_num⟩

/-- C2 amended: the response confidence lies in [0, 1] whenever every
confidence field the remote endpoints report (structured parser and vision,
on every page) lies in [0, 1]; when a reply reports a confidence outside
that interval it is passed through to the response unclamped, as the
counterexample shows.  All internally generated confidences (defaults 0.8,
0.5, 0.3 and 0.0, page averaging, two-decimal rounding) stay inside the
interval. -/
theorem c2_amended_confidence_bounds (filename content_type : String)
    (pdfPages : Except Unit (List PageOracle))
    (imagePage : Except Unit PageOracle)
    (hpdf : ∀ ps, pdfPages = .ok ps → ∀ o ∈ ps, ReplyConfOK o)
    (himg : ∀ o, imagePage = .ok o → ReplyConfOK o) :
    0 ≤ (process_single_file filename content_type pdfPages imagePage).confidence ∧
      (process_single_file filename content_type pdfPages imagePage).confidence ≤ 1 := by
  unfold process_single_file
  split
  · -- PDF branch
    cases pdfPages with
    | error e => simp [emptyResponse]
    | ok ps =>
        dsimp only
        cases hmp : mapPages (fun o => process_image_ocr o true) ps with
        | error e => simp [emptyResponse]
        | ok results =>
            simp only [aggregate_confidence]
            obtain ⟨hlen, hmem⟩ := mapPages_ok _ ps results hmp
            have heach : ∀ x ∈ results.map (fun r => r.2.2), 0 ≤ x ∧ x ≤ 1 := by
              intro x hx
              obtain ⟨r, hr, rfl⟩ := List.mem_map.mp hx
              obtain ⟨o, ho, hfo⟩ := hmem r hr
              exact page_conf_bounds o true r hfo (hpdf ps rfl o ho)
            obtain ⟨hsum0, hsum1⟩ := sum_bounds _ heach
            rw [List.length_map, hlen] at hsum1
            apply round2_bounds
            · split_ifs with hn
              · positivity
              · exact le_refl 0
            · split_ifs with hn
              · rw [div_le_one (by exact_mod_cast hn)]
                exact hsum1
              · norm_num
  · -- image branch
    cases imagePage with
    | error e => simp [emptyResponse]
    | ok o =>
        dsimp only
        cases hp : process_image_ocr o true with
        | error e => simp [emptyResponse]
        | ok r =>
            simp only [aggregate_confidence]
            obtain ⟨h0, h1⟩ := page_conf_bounds o true r hp (himg o rfl)
            apply round2_bounds
            · simpa using h0
            · simp only [if_pos Nat.one_pos]
              rw [div_le_one (by norm_num)]
              simpa using h1

/-- C2 witness: the amended bound instantiated on a PDF whose decode fails
(the hypotheses hold vacuously); the empty response carries confidence
0.0. -/
theorem c2_witness :
    0 ≤ (process_single_file "scan.pdf" "application/pdf" (.error ())
        (.error ())).confidence ∧
      (process_single_file "scan.pdf" "application/pdf" (.error ())
        (.error ())).confidence ≤ 1 :=
  c2_amended_confidence_bounds "scan.pdf" "application/pdf" (.error ())
    (.error ()) (fun _ h => nomatch h) (fun _ h => nomatch h)

/-! ## Strip and lower lemmas for normalization idempotence -/

theorem lowerChar_not_upper (c : Char) (h : c ∉ upperChars) :
    lowerChar c = c := by
  simp only [upperChars, List.mem_cons, List.not_mem_nil, or_false,
    not_or] at h
  obtain ⟨h1, h2, h3, h4, h5, h6, h7, h8, h9, h10, h11, h12, h13, h14, h15,
    h16, h17, h18, h19, h20, h21, h22, h23, h24, h25, h26⟩ := h
  unfold lowerChar
  rw [if_neg h1, if_neg h2, if_neg h3, if_neg h4, if_neg h5, if_neg h6,
    if_neg h7, if_neg h8, if_neg h9, if_neg h10, if_neg h11, if_neg h12,
    if_neg h13, if_neg h14, if_neg h15, if_neg h16, if_neg h17, if_neg h18,
    if_neg h19, if_neg h20, if_neg h21, if_neg h22, if_neg h23, if_neg h24,
    if_neg h25, if_neg h26]

theorem isPySpace_lowerChar (c : Char) :
    isPySpace (lowerChar c) = isPySpace c := by
  by_cases hin : c ∈ upperChars
  · simp only [upperChars, List.mem_cons, List.not_mem_nil, or_false] at hin
    rcases hin with rfl | rfl | rfl | rfl | rfl | rfl | rfl | rfl | rfl |
      rfl | rfl | rfl | rfl | rfl | rfl | rfl | rfl | rfl | rfl | rfl |
      rfl | rfl | rfl | rfl | rfl | rfl <;> decide
  · rw [lowerChar_not_upper c hin]

theorem dropWhile_map_lower (l : List Char) :
    (l.map lowerChar).dropWhile isPySpace =
      (l.dropWhile isPySpace).map lowerChar := by
  rw [List.dropWhile_map]
  have hfun : (isPySpace ∘ lowerChar) = isPySpace := funext isPySpace_lowerChar
  rw [hfun]

theorem stripList_map_lower (l : List Char) :
    stripList (l.map lowerChar) = (stripList l).map lowerChar := by
  unfold stripList
  rw [dropWhile_map_lower, ← List.map_reverse, dropWhile_map_lower,
    ← List.map_reverse]

theorem head?_dropWhile_false (p : Char → Bool) (l : List Char) (x : Char)
    (h : (l.dropWhile p).head? = some x) : p x = false := by
  have hd := List.head?_dropWhile_not p l
  rw [h] at hd
  exact hd

theorem dropWhile_eq_self_of_head (p : Char → Bool) (l : List Char)
    (h : ∀ x, l.head? = some x → p x = false) : l.dropWhile p = l := by
  cases l with
  | nil => rfl
  | cons c t => rw [List.dropWhile_cons, if_neg (by simp [h c rfl])]

theorem getLast?_dropWhile (p : Char → Bool) (m : List Char)
    (h : m.dropWhile p ≠ []) :
    (m.dropWhile p).getLast? = m.getLast? := by
  obtain ⟨t, ht⟩ := List.dropWhile_suffix (l := m) p
  conv_rhs => rw [← ht]
  rw [List.getLast?_append]
  cases hB : (m.dropWhile p).getLast? with
  | none =>
      cases hm : m.dropWhile p with
      | nil => exact absurd hm h
      | cons y ys => rw [hm] at hB; simp at hB
  | some y => rfl

theorem stripList_idem (l : List Char) :
    stripList (stripList l) = stripList l := by
  by_cases hBnil : (l.dropWhile isPySpace).reverse.dropWhile isPySpace = []
  · have hsl : stripList l = [] := by unfold stripList; rw [hBnil]; rfl
    rw [hsl]
    rfl
  · have hX : stripList l =
        ((l.dropWhile isPySpace).reverse.dropWhile isPySpace).reverse := rfl
    have h1 : (stripList l).dropWhile isPySpace = stripList l := by
      apply dropWhile_eq_self_of_head
      intro x hx
      rw [hX, List.head?_reverse] at hx
      rw [getLast?_dropWhile _ _ hBnil] at hx
      rw [List.getLast?_reverse] at hx
      exact head?_dropWhile_false isPySpace l x hx
    calc stripList (stripList l)
        = (((stripList l).dropWhile isPySpace).reverse.dropWhile
            isPySpace).reverse := rfl
      _ = ((stripList l).reverse.dropWhile isPySpace).reverse := by rw [h1]
      _ = (((l.dropWhile isPySpace).reverse.dropWhile
            isPySpace).dropWhile isPySpace).reverse := by
            rw [hX, List.reverse_reverse]
      _ = ((l.dropWhile isPySpace).reverse.dropWhile isPySpace).reverse := by
            rw [List.dropWhile_idempotent]
      _ = stripList l := rfl

theorem pyStrip_idem (s : String) : pyStrip (pyStrip s) = pyStrip s :=
  congrArg String.mk (stripList_idem s.data)

theorem pyLower_pyStrip (s : String) :
    pyLower (pyStrip s) = pyStrip (pyLower s) :=
  congrArg String.mk (stripList_map_lower s.data).symm

theorem aliasLookup_mem :
    ∀ (l : List (String × String)) (k v : String),
      aliasLookup l k = some v → (k, v) ∈ l := by
  intro l
  induction l with
  | nil => intro k v h; cases h
  | cons p t ih =>
      intro k v h
      cases p with
      | mk k0 v0 =>
          simp only [aliasLookup] at h
          split_ifs at h with hk
          · injection h with h2
            subst h2
            subst hk
            exact List.mem_cons_self _ _
          · exact List.mem_cons_of_mem _ (ih k v h)

set_option maxRecDepth 10000 in
theorem alias_values_fixed :
    ∀ p ∈ MARKER_ALIASES, normalize_marker_name p.2 = p.2 := by decide

/-- C8: alias normalization is idempotent on every string.  A string that
hits the alias table maps to a canonical name, and every canonical name in
the table either maps to itself or is not an alias key; a string that
misses is stripped, and stripping composed with lowercasing commutes, so a
second pass reproduces the first. -/
theorem c8_normalize_idempotent (s : String) :
    normalize_marker_name (normalize_marker_name s) = normalize_marker_name s := by
  unfold normalize_marker_name
  cases hl : aliasLookup MARKER_ALIASES (pyStrip (pyLower s)) with
  | some v =>
      have hv := alias_values_fixed _ (aliasLookup_mem _ _ _ hl)
      simpa [normalize_marker_name] using hv
  | none =>
      have hkey : pyStrip (pyLower (pyStrip s)) = pyStrip (pyLower s) := by
        rw [pyLower_pyStrip, pyStrip_idem]
      rw [hkey, hl]
      exact pyStrip_idem s

/-! ## Unit-nonemptiness invariant (schema validation) -/

theorem mkBloodworkMarker_unit (name : String) (value : ℚ) (unit : String)
    (rl rh : Option ℚ) (flag : Option String) (m : BloodworkMarker)
    (h : mkBloodworkMarker name value unit rl rh flag = some m) :
    m.unit ≠ "" := by
  unfold mkBloodworkMarker at h
  split_ifs at h with hc
  injection h with h2
  rw [← h2]
  intro hcon
  have hueq : unit = "" := hcon
  rw [hueq] at hc
  exact absurd hc.2.2.1 (by decide)

theorem coerceMarker_unit (rm : RawMarker) (m : BloodworkMarker)
    (h : coerceMarker rm = some m) : m.unit ≠ "" := by
  simp only [coerceMarker] at h
  split_ifs at h with h1
  split at h
  · exact Option.noConfusion h
  · split at h
    · exact mkBloodworkMarker_unit _ _ _ _ _ _ _ h
    · exact Option.noConfusion h

theorem llm_units (rep : Except Unit LLMReply) (m : BloodworkMarker)
    (hm : m ∈ (parse_markers_with_llm rep).1) : m.unit ≠ "" := by
  cases rep with
  | error e => simp [parse_markers_with_llm] at hm
  | ok r =>
      simp only [parse_markers_with_llm] at hm
      obtain ⟨rm, _, hc⟩ := List.mem_filterMap.mp hm
      exact coerceMarker_unit rm m hc

theorem mkVisionMarker_unit (rm : RawVisionMarker) (m : BloodworkMarker)
    (h : mkVisionMarker rm = some m) : m.unit ≠ "" := by
  simp only [mkVisionMarker, bind, Option.bind_eq_some] at h
  obtain ⟨v, hv, rl, hrl, rh, hrh, hmk⟩ := h
  exact mkBloodworkMarker_unit _ _ _ _ _ _ _ hmk

theorem mapMarkers_units :
    ∀ (ms : List RawVisionMarker) (bs : List BloodworkMarker),
      mapMarkers ms = some bs → ∀ m ∈ bs, m.unit ≠ "" := by
  intro ms
  induction ms with
  | nil =>
      intro bs h m hm
      unfold mapMarkers at h
      injection h with h2
      subst h2
      simp at hm
  | cons rm rest ih =>
      intro bs h m hm
      unfold mapMarkers at h
      split at h
      · exact Option.noConfusion h
      · rename_i b hb
        split at h
        · exact Option.noConfusion h
        · rename_i bs2 hbs2
          injection h with h2
          subst h2
          rcases List.mem_cons.mp hm with rfl | hm2
          · exact mkVisionMarker_unit rm m hb
          · exact ih bs2 hbs2 m hm2

theorem vision_units (o : VisionOutcome) (m : BloodworkMarker)
    (hm : m ∈ (process_with_vision o).1) : m.unit ≠ "" := by
  cases o with
  | fail => simp [process_with_vision] at hm
  | prose c => simp [process_with_vision] at hm
  | json ms rt conf =>
      simp only [process_with_vision] at hm
      cases hmm : mapMarkers ms with
      | none => rw [hmm] at hm; simp at hm
      | some markers =>
          rw [hmm] at hm
          exact mapMarkers_units ms markers hmm m hm

theorem lineStep2_not_some (line : List Char) (m : BloodworkMarker) :
    lineStep2 line ≠ .ok (some m) := by
  unfold lineStep2
  split
  · simp
  · split_ifs
    · simp
    · split <;> simp

theorem lineMarker_some_unit (line : List Char) (m : BloodworkMarker)
    (h : lineMarker line = .ok (some m)) : m.unit ≠ "" := by
  unfold lineMarker at h
  split at h
  · exact absurd h (lineStep2_not_some _ _)
  · split_ifs at h with hname
    · exact absurd h (lineStep2_not_some _ _)
    · split at h
      · exact absurd h (lineStep2_not_some _ _)
      · split at h
        · split at h
          · rename_i marker hmk
            injection h with h2
            injection h2 with h3
            rw [← h3]
            exact mkBloodworkMarker_unit _ _ _ _ _ _ _ hmk
          · exact absurd h (lineStep2_not_some _ _)
        · exact absurd h (lineStep2_not_some _ _)

theorem collectLines_units :
    ∀ (lines : List (List Char)) (acc out : List BloodworkMarker),
      collectLines lines acc = .ok out → (∀ m ∈ acc, m.unit ≠ "") →
      ∀ m ∈ out, m.unit ≠ "" := by
  intro lines
  induction lines with
  | nil =>
      intro acc out h hacc
      unfold collectLines at h
      injection h with h2
      subst h2
      exact hacc
  | cons line rest ih =>
      intro acc out h hacc
      unfold collectLines at h
      split_ifs at h with hemp
      · exact ih acc out h hacc
      · split at h
        · exact absurd h (by simp)
        · rename_i m0 hm0
          refine ih _ out h ?_
          intro m hm
          rcases List.mem_append.mp hm with hm2 | hm2
          · exact hacc m hm2
          · rcases List.mem_singleton.mp hm2 with rfl
            exact lineMarker_some_unit line m hm0
        · exact ih acc out h hacc

theorem dedupFirstAux_subset :
    ∀ (ms : List BloodworkMarker) (seen : List String),
      ∀ x ∈ dedupFirstAux seen ms, x ∈ ms := by
  intro ms
  induction ms with
  | nil => intro seen x hx; simp [dedupFirstAux] at hx
  | cons m t ih =>
      intro seen x hx
      unfold dedupFirstAux at hx
      split_ifs at hx with hseen
      · exact List.mem_cons_of_mem m (ih _ x hx)
      · rcases List.mem_cons.mp hx with rfl | hx2
        · exact List.mem_cons_self _ _
        · exact List.mem_cons_of_mem m (ih _ x hx2)

theorem regex_units (t : String) (ms : List BloodworkMarker)
    (h : extract_markers_regex t = .ok ms) : ∀ m ∈ ms, m.unit ≠ "" := by
  unfold extract_markers_regex at h
  split at h
  · exact absurd h (by simp)
  · rename_i collected hcol
    injection h with h2
    subst h2
    intro m hm
    exact collectLines_units _ [] collected hcol (by simp) m
      (dedupFirstAux_subset collected [] m hm)

theorem page_markers_cases (o : PageOracle) (b : Bool)
    (res : List BloodworkMarker × String × ℚ)
    (h : process_image_ocr o b = .ok res) :
    res.1 = (parse_markers_with_llm o.llm).1 ∨ res.1 = [] ∨
      (∃ ms, extract_markers_regex (extract_text_tesseract o.grid o.raw)
          = .ok ms ∧ res.1 = ms) ∨
      res.1 = (process_with_vision o.vision).1 := by
  simp only [process_image_ocr] at h
  have hs1 : (if 50 < (extract_text_tesseract o.grid o.raw).length
        then parse_markers_with_llm o.llm else ([], 0)).1
          = (parse_markers_with_llm o.llm).1 ∨
      (if 50 < (extract_text_tesseract o.grid o.raw).length
        then parse_markers_with_llm o.llm else ([], 0)).1 = [] := by
    split_ifs
    · left; rfl
    · right; rfl
  set s1 := if 50 < (extract_text_tesseract o.grid o.raw).length
      then parse_markers_with_llm o.llm else ([], 0) with hs1def
  split at h
  · exact absurd h (by simp)
  · rename_i s2 heq
    injection h with h2
    rw [← h2]
    simp only []
    split_ifs with hvis
    · right; right; right; rfl
    · split at heq
      · split at heq
        · exact absurd heq (by simp)
        · rename_i ms hms
          injection heq with heq2
          rw [← heq2]
          split_ifs with hempty
          · rcases hs1 with hs | hs
            · left; exact hs
            · right; left; exact hs
          · right; right; left; exact ⟨ms, hms, rfl⟩
      · injection heq with heq2
        rw [← heq2]
        rcases hs1 with hs | hs
        · left; exact hs
        · right; left; exact hs

theorem page_units (o : PageOracle) (b : Bool)
    (res : List BloodworkMarker × String × ℚ)
    (h : process_image_ocr o b = .ok res) : ∀ m ∈ res.1, m.unit ≠ "" := by
  rcases page_markers_cases o b res h with hc | hc | ⟨ms, hms, hc⟩ | hc
  · rw [hc]; intro m hm; exact llm_units o.llm m hm
  · rw [hc]; simp
  · rw [hc]; exact regex_units _ ms hms
  · rw [hc]; intro m hm; exact vision_units o.vision m hm

theorem upsert_values (acc : List (String × BloodworkMarker))
    (m : BloodworkMarker) :
    ∀ p ∈ upsertMarker acc m, p.2 ∈ acc.map (fun q => q.2) ∨ p.2 = m := by
  simp only [upsertMarker]
  split
  · intro p hp
    obtain ⟨q, hq, rfl⟩ := List.mem_map.mp hp
    by_cases hq1 : q.1 = pyLower m.name
    · simp only [if_pos hq1]
      right
      trivial
    · simp only [if_neg hq1]
      left
      exact List.mem_map.mpr ⟨q, hq, rfl⟩
  · intro p hp
    rcases List.mem_append.mp hp with hp2 | hp2
    · left; exact List.mem_map.mpr ⟨p, hp2, rfl⟩
    · rcases List.mem_singleton.mp hp2 with rfl
      right
      rfl

theorem foldl_upsert_values (ms : List BloodworkMarker) :
    ∀ acc, ∀ p ∈ ms.foldl upsertMarker acc,
      p.2 ∈ acc.map (fun q => q.2) ∨ p.2 ∈ ms := by
  induction ms with
  | nil =>
      intro acc p hp
      left
      exact List.mem_map.mpr ⟨p, hp, rfl⟩
  | cons m t ih =>
      intro acc p hp
      rw [List.foldl_cons] at hp
      rcases ih (upsertMarker acc m) p hp with hv | hv
      · obtain ⟨q, hq, hq2⟩ := List.mem_map.mp hv
        rcases upsert_values acc m q hq with h2 | h2
        · left; rw [← hq2]; exact h2
        · right; rw [← hq2, h2]; exact List.mem_cons_self _ _
      · right; exact List.mem_cons_of_mem m hv

theorem dedupMarkers_subset (ms : List BloodworkMarker) :
    ∀ x ∈ dedupMarkers ms, x ∈ ms := by
  intro x hx
  unfold dedupMarkers at hx
  obtain ⟨p, hp, rfl⟩ := List.mem_map.mp hx
  rcases foldl_upsert_values ms [] p hp with hv | hv
  · simp at hv
  · exact hv

theorem aggregate_markers (a : List BloodworkMarker) (p : List String)
    (t : ℚ) (n : ℕ) : (aggregate a p t n).markers = dedupMarkers a := rfl

/-- C9 counterexample: the claim says every marker in any response has a
non-empty name.  A vision reply entry declaring the name " " passes the
schema length check (its length is one) and is then stripped, so the
pipeline returns a marker whose name is the empty string. -/
theorem c9_counterexample :
    ((process_single_file "photo.png" "image/png" (.error ())
        (.ok oracleBlankName)).markers.map (fun m => m.name)) = [""] := by
  decide

/-- C9 amended: every marker in any response has a non-empty unit — a
marker entry whose unit is absent or empty fails the schema and is
discarded (per entry in the structured parser and the regex stage, and as
a whole reply in the vision stage).  The non-empty-name half of the claim
fails: the schema checks the name length before stripping, so a
whitespace-only name reaches the response as an empty name through the
vision stage, as the counterexample shows. -/
theorem c9_amended_unit_nonempty (filename content_type : String)
    (pdfPages : Except Unit (List PageOracle))
    (imagePage : Except Unit PageOracle) :
    ∀ m ∈ (process_single_file filename content_type pdfPages
        imagePage).markers, m.unit ≠ "" := by
  unfold process_single_file
  split
  · cases pdfPages with
    | error e => simp [emptyResponse]
    | ok ps =>
        dsimp only
        cases hmp : mapPages (fun o => process_image_ocr o true) ps with
        | error e => simp [emptyResponse]
        | ok results =>
            simp only [aggregate_markers]
            intro m hm
            have hm2 := dedupMarkers_subset _ m hm
            rw [List.mem_flatten] at hm2
            obtain ⟨l, hl, hml⟩ := hm2
            obtain ⟨r, hr, rfl⟩ := List.mem_map.mp hl
            obtain ⟨hlen, hmem⟩ := mapPages_ok _ ps results hmp
            obtain ⟨o, ho, hfo⟩ := hmem r hr
            exact page_units o true r hfo m hml
  · cases imagePage with
    | error e => simp [emptyResponse]
    | ok o =>
        dsimp only
        cases hp : process_image_ocr o true with
        | error e => simp [emptyResponse]
        | ok r =>
            simp only [aggregate_markers]
            intro m hm
            exact page_units o true r hp m (dedupMarkers_subset _ m hm)

/-- C9 witness: the amended statement applied to a concrete run whose
response contains the Glucose marker. -/
theorem c9_witness : mGlucose95.unit ≠ "" :=
  c9_amended_unit_nonempty "report.jpg" "image/jpeg" (.error ())
    (.ok oracleConf5) mGlucose95 (by decide)

end OutliveOCR
